import Mathlib

/-!
Verification development for the SDG challenge pipeline
(chunker.py, deduplicator.py, scorer.py, pipeline.py, database.py, config.py).

The Python code is shallowly embedded: dict-shaped records become
structures (a key read with a falsy default becomes a field holding that
default), Python floats are modelled exactly over `ℚ` (every constant in
the source is a short decimal and every comparison in the claims is far
from any double-rounding boundary), `int(x)` becomes truncation toward
zero on `ℚ`, and Python strings become Lean `String`/`List Char` (all
inputs exercised here are ASCII).
-/

set_option maxRecDepth 200000

/-! ## Python string primitives -/

/-- The characters Python's `str.split()` (and the regex class `\s`, for
ASCII input) treats as whitespace: space, tab, newline, carriage return,
vertical tab, form feed. -/
def pyIsSpace (c : Char) : Bool :=
  c = ' ' || c = '\t' || c = '\n' || c = '\r' || c = '\x0b' || c = '\x0c'

/-- Accumulator-based tokenizer: `wordsAux l acc` scans `l`, `acc` holding
the (reversed) characters of the word currently being read.  Mirrors
Python's `str.split()` with no arguments: maximal runs of non-whitespace
characters, empty tokens never produced. -/
def wordsAux : List Char → List Char → List (List Char)
  | [], [] => []
  | [], acc => [acc.reverse]
  | c :: rest, acc =>
    if pyIsSpace c then
      match acc with
      | [] => wordsAux rest []
      | _ => acc.reverse :: wordsAux rest []
    else
      wordsAux rest (c :: acc)

/-- `text.split()` on character lists. -/
def pySplitL (l : List Char) : List (List Char) := wordsAux l []

/-- Python `text.split()`: whitespace-delimited nonempty tokens. -/
def pySplit (s : String) : List String :=
  (pySplitL s.data).map (fun w => String.mk w)

/-- Python `str.strip()` on a character list. -/
def pyStrip (l : List Char) : List Char :=
  ((l.dropWhile pyIsSpace).reverse.dropWhile pyIsSpace).reverse

/-- `" ".join ws` on character lists. -/
def joinSpL (ws : List (List Char)) : List Char :=
  match ws with
  | [] => []
  | [w] => w
  | w :: rest => w ++ ' ' :: joinSpL rest

/-- Python `" ".join(words)`. -/
def joinSp (ws : List String) : String := String.mk (joinSpL (ws.map String.data))

/-- `beginsWith needle hay` : does `hay` start with `needle`? -/
def beginsWith : List Char → List Char → Bool
  | [], _ => true
  | _ :: _, [] => false
  | a :: as, b :: bs => a = b && beginsWith as bs

/-- Python's `needle in hay` substring test. -/
def hasSub (needle : List Char) : List Char → Bool
  | [] => beginsWith needle []
  | c :: t => beginsWith needle (c :: t) || hasSub needle t

/-- Python's `needle in hay` on strings. -/
def pyInStr (needle hay : String) : Bool := hasSub needle.data hay.data

/-- Insertion-order deduplication: the sequence of first occurrences.
This is the iteration order of a Python `dict` / of `set` elements as the
source observes it through `dict.values()`. -/
def firstDedup (l : List String) : List String :=
  l.foldl (fun acc a => if a ∈ acc then acc else acc ++ [a]) []

/-- Python `int(x)` on an exact rational: truncation toward zero. -/
def pyInt (q : ℚ) : ℤ := if 0 ≤ q then ⌊q⌋ else ⌈q⌉

/-! ## config.py -/

/-- config.py: CHALLENGE_DENSITY_WEIGHT. -/
def CHALLENGE_DENSITY_WEIGHT : ℚ := 35 / 100
/-- config.py: SPECIFICITY_WEIGHT. -/
def SPECIFICITY_WEIGHT : ℚ := 25 / 100
/-- config.py: EVIDENCE_WEIGHT. -/
def EVIDENCE_WEIGHT : ℚ := 20 / 100
/-- config.py: RECENCY_WEIGHT. -/
def RECENCY_WEIGHT : ℚ := 10 / 100
/-- config.py: SOLUTION_LEAKAGE_WEIGHT. -/
def SOLUTION_LEAKAGE_WEIGHT : ℚ := -(20 / 100)

/-- config.py: MIN_CONFIDENCE. -/
def MIN_CONFIDENCE : ℚ := 50 / 100
/-- config.py: MIN_OVERALL_SCORE. -/
def MIN_OVERALL_SCORE : ℤ := 40
/-- config.py: MAX_SOLUTION_LEAKAGE. -/
def MAX_SOLUTION_LEAKAGE : ℤ := 70

/-- config.py: CHALLENGE_KEYWORDS_EN (a Python `set` literal; listed here
in source order). -/
def CHALLENGE_KEYWORDS_EN : List String :=
  ["barrier", "barriers", "constraint", "constraints", "bottleneck", "bottlenecks",
   "gap", "gaps", "unmet need", "unmet needs", "risk", "risks", "vulnerability",
   "vulnerabilities", "inequality", "shortage", "lack of", "needs assessment",
   "baseline", "problem statement", "context", "rationale", "challenge", "challenges"]

/-- config.py: CHALLENGE_KEYWORDS_NL. -/
def CHALLENGE_KEYWORDS_NL : List String :=
  ["uitdaging", "uitdagingen", "knelpunt", "knelpunten", "belemmering", "belemmeringen",
   "gat", "gaten", "onvervulde behoefte", "onvervulde behoeften", "risico", "risico\x27s",
   "kwetsbaarheid", "ongelijkheid", "tekort", "gebrek aan", "behoefteanalyse",
   "basislijnstudie", "probleemstelling", "context", "rationale"]

/-- config.py: SOLUTION_KEYWORDS_EN. -/
def SOLUTION_KEYWORDS_EN : List String :=
  ["will implement", "will develop", "solution", "technology", "deploy", "rollout",
   "build a platform", "deliver a tool", "pilot", "prototype", "intervention",
   "implement", "develop", "deployment", "launch", "introduce", "establish"]

/-- config.py: SOLUTION_KEYWORDS_NL. -/
def SOLUTION_KEYWORDS_NL : List String :=
  ["we gaan", "implementeren", "ontwikkelen", "uitrollen", "pilot", "prototype",
   "zullen", "gaan", "platform", "tool", "interventie", "lanceren", "introduceren"]

/-- scorer.py `__init__`: `CHALLENGE_KEYWORDS_EN | CHALLENGE_KEYWORDS_NL`.
A Python set union holds each keyword once; the list of distinct keywords
(iteration order of a Python set is unspecified, and only the count of
matching keywords is ever observed). -/
def challenge_keywords : List String :=
  firstDedup (CHALLENGE_KEYWORDS_EN ++ CHALLENGE_KEYWORDS_NL)

/-- scorer.py `__init__`: `SOLUTION_KEYWORDS_EN | SOLUTION_KEYWORDS_NL`. -/
def solution_keywords : List String :=
  firstDedup (SOLUTION_KEYWORDS_EN ++ SOLUTION_KEYWORDS_NL)

/-! ## Data model (schemas as the dict-shaped records are used) -/

/-- The score dict returned by `ChallengeScorer.score_challenge` and read
back by `filter_challenges` via `dict.get` with default `0`.  Each field
is `Option ℤ`, `none` standing for an absent key (the human-readable
`scoring_notes` string is omitted: no claim concerns it). -/
structure ScoreDict where
  challenge_density : Option ℤ := none
  solution_leakage : Option ℤ := none
  specificity : Option ℤ := none
  evidence_strength : Option ℤ := none
  recency_score : Option ℤ := none
  overall_score : Option ℤ := none
  deriving DecidableEq, Repr

/-- A challenge record as the deduplicator/scorer consume it.  A key read
with a falsy default is a plain field holding that default
(`challenge_statement` and `geography` default to `""`, `confidence` to
`0`, the list fields to `[]`); `score` is `Option` because
`filter_challenges` reads it with `challenge.get('score', \x7b\x7d)`. -/
structure Challenge where
  challenge_statement : String := ""
  confidence : ℚ := 0
  geography : String := ""
  target_groups : List String := []
  sectors : List String := []
  scale_numbers : List (String × ℚ) := []
  root_causes : List String := []
  constraints : List String := []
  evidence_quotes : List String := []
  merged_from : Option ℕ := none
  statement_fingerprint : Option String := none
  score : Option ScoreDict := none
  deriving DecidableEq, Repr

instance : Inhabited Challenge := ⟨{}⟩

/-! ## scorer.py : ChallengeScorer -/

/-- scorer.py `_score_challenge_density`: keyword hits per word, times
1000, capped at 100. -/
def score_challenge_density (text : String) : ℚ :=
  if text = "" then 0
  else
    let text_lower := String.mk (text.data.map Char.toLower)
    let word_count : ℕ := (pySplit text).length
    let challenge_count : ℕ :=
      (challenge_keywords.filter (fun k => pyInStr k text_lower)).length
    if word_count = 0 then 0
    else
      let density : ℚ := ((challenge_count : ℚ) / (word_count : ℚ)) * 100
      min 100 (density * 10)

/-- scorer.py `_score_solution_leakage`: same formula over the solution
keyword set. -/
def score_solution_leakage (text : String) : ℚ :=
  if text = "" then 0
  else
    let text_lower := String.mk (text.data.map Char.toLower)
    let word_count : ℕ := (pySplit text).length
    let solution_count : ℕ :=
      (solution_keywords.filter (fun k => pyInStr k text_lower)).length
    if word_count = 0 then 0
    else
      let leakage : ℚ := ((solution_count : ℚ) / (word_count : ℚ)) * 100
      min 100 (leakage * 10)

/-- scorer.py `_score_specificity`: +30 scale_numbers, +30 geography,
+20 target_groups, +20 sectors, capped at 100. -/
def score_specificity (c : Challenge) : ℚ :=
  let s0 : ℚ := 0
  let s1 := if c.scale_numbers ≠ [] then s0 + 30 else s0
  let s2 := if c.geography ≠ "" then s1 + 30 else s1
  let s3 := if c.target_groups ≠ [] ∧ 0 < c.target_groups.length then s2 + 20 else s2
  let s4 := if c.sectors ≠ [] ∧ 0 < c.sectors.length then s3 + 20 else s3
  min 100 s4

/-- scorer.py `_score_evidence`: +40 evidence_quotes, +30 root_causes,
+30 constraints, capped at 100. -/
def score_evidence (c : Challenge) : ℚ :=
  let s0 : ℚ := 0
  let s1 := if c.evidence_quotes ≠ [] ∧ 0 < c.evidence_quotes.length then s0 + 40 else s0
  let s2 := if c.root_causes ≠ [] ∧ 0 < c.root_causes.length then s1 + 30 else s1
  let s3 := if c.constraints ≠ [] ∧ 0 < c.constraints.length then s2 + 30 else s2
  min 100 s3

/-- scorer.py `_score_recency`: the constant placeholder 70. -/
def score_recency (_c : Challenge) : ℚ := 70

/-- scorer.py `score_challenge`: the weighted composite before clamping. -/
def score_overall_raw (c : Challenge) : ℚ :=
  CHALLENGE_DENSITY_WEIGHT * score_challenge_density c.challenge_statement +
  SPECIFICITY_WEIGHT * score_specificity c +
  EVIDENCE_WEIGHT * score_evidence c +
  RECENCY_WEIGHT * score_recency c +
  SOLUTION_LEAKAGE_WEIGHT * score_solution_leakage c.challenge_statement

/-- scorer.py `score_challenge`: the composite clamped to [0, 100]
(`max(0, min(100, overall_score))`). -/
def score_overall (c : Challenge) : ℚ := max 0 (min 100 (score_overall_raw c))

/-- scorer.py `score_challenge`: the five sub-scores, the clamped
composite, all passed through `int(...)`. -/
def score_challenge (c : Challenge) : ScoreDict :=
  { challenge_density := some (pyInt (score_challenge_density c.challenge_statement))
    solution_leakage := some (pyInt (score_solution_leakage c.challenge_statement))
    specificity := some (pyInt (score_specificity c))
    evidence_strength := some (pyInt (score_evidence c))
    recency_score := some (pyInt (score_recency c))
    overall_score := some (pyInt (score_overall c)) }

/-- `challenge.get('score', \x7b\x7d).get('overall_score', 0)` as
`filter_challenges` reads it. -/
def getOverall (c : Challenge) : ℤ :=
  ((c.score.getD {}).overall_score).getD 0

/-- `challenge.get('score', \x7b\x7d).get('solution_leakage', 0)`. -/
def getLeakage (c : Challenge) : ℤ :=
  ((c.score.getD {}).solution_leakage).getD 0

/-- scorer.py `filter_challenges`: keep challenges whose overall score,
confidence and solution leakage pass the thresholds. -/
def filter_challenges (challenges : List Challenge)
    (min_overall_score : ℤ) (min_confidence : ℚ) (max_solution_leakage : ℤ) :
    List Challenge :=
  challenges.filter (fun c =>
    decide (min_overall_score ≤ getOverall c ∧
      min_confidence ≤ c.confidence ∧
      getLeakage c ≤ max_solution_leakage))

/-- `filter_challenges` at its default thresholds (40, 0.50, 70). -/
def filter_challenges_default (challenges : List Challenge) : List Challenge :=
  filter_challenges challenges 40 (50 / 100) 70

/-! ## SHA-256 (hashlib.sha256, used by deduplicator.py)

A byte-level implementation over `ℕ`, all 32-bit arithmetic taken modulo
`2 ^ 32`. -/

/-- `2 ^ 32`. -/
def M32 : ℕ := 4294967296

/-- Right rotation of a 32-bit word. -/
def rotr32 (k x : ℕ) : ℕ := ((x >>> k) ||| (x <<< (32 - k))) % M32

/-- SHA-256 small sigma 0. -/
def ssig0 (x : ℕ) : ℕ := rotr32 7 x ^^^ rotr32 18 x ^^^ (x >>> 3)

/-- SHA-256 small sigma 1. -/
def ssig1 (x : ℕ) : ℕ := rotr32 17 x ^^^ rotr32 19 x ^^^ (x >>> 10)

/-- SHA-256 big sigma 0. -/
def bsig0 (x : ℕ) : ℕ := rotr32 2 x ^^^ rotr32 13 x ^^^ rotr32 22 x

/-- SHA-256 big sigma 1. -/
def bsig1 (x : ℕ) : ℕ := rotr32 6 x ^^^ rotr32 11 x ^^^ rotr32 25 x

/-- SHA-256 choice function. -/
def chf (e f g : ℕ) : ℕ := (e &&& f) ^^^ ((e ^^^ (M32 - 1)) &&& g)

/-- SHA-256 majority function. -/
def majf (a b c : ℕ) : ℕ := (a &&& b) ^^^ (a &&& c) ^^^ (b &&& c)

/-- The 64 SHA-256 round constants (FIPS 180-4, in decimal). -/
def K256 : List ℕ :=
  [1116352408, 1899447441, 3049323471, 3921009573, 961987163, 1508970993,
   2453635748, 2870763221, 3624381080, 310598401, 607225278, 1426881987,
   1925078388, 2162078206, 2614888103, 3248222580, 3835390401, 4022224774,
   264347078, 604807628, 770255983, 1249150122, 1555081692, 1996064986,
   2554220882, 2821834349, 2952996808, 3210313671, 3336571891, 3584528711,
   113926993, 338241895, 666307205, 773529912, 1294757372, 1396182291,
   1695183700, 1986661051, 2177026350, 2456956037, 2730485921, 2820302411,
   3259730800, 3345764771, 3516065817, 3600352804, 4094571909, 275423344,
   430227734, 506948616, 659060556, 883997877, 958139571, 1322822218,
   1537002063, 1747873779, 1955562222, 2024104815, 2227730452, 2361852424,
   2428436474, 2756734187, 3204031479, 3329325298]

/-- The SHA-256 initial hash state (FIPS 180-4, in decimal). -/
def H256 : List ℕ :=
  [1779033703, 3144134277, 1013904242, 2773480762,
   1359893119, 2600822924, 528734635, 1541459225]

/-- Merkle-Damgard padding: append `0x80`, zeros to 56 mod 64, then the
bit length as 8 big-endian bytes. -/
def shaPad (msg : List ℕ) : List ℕ :=
  let L := msg.length
  let zeros := (119 - L % 64) % 64
  msg ++ [128] ++ List.replicate zeros 0 ++
    (List.range 8).map (fun i => ((8 * L) >>> (8 * (7 - i))) % 256)

/-- Split a padded message into 64-byte blocks. -/
def shaBlocks (p : List ℕ) : List (List ℕ) :=
  (List.range (p.length / 64)).map (fun i => (p.drop (64 * i)).take 64)

/-- Big-endian byte-list to word. -/
def beWord (bs : List ℕ) : ℕ := bs.foldl (fun a b => a * 256 + b) 0

/-- The 16 initial message-schedule words of a block. -/
def blockWords (b : List ℕ) : List ℕ :=
  (List.range 16).map (fun i => beWord ((b.drop (4 * i)).take 4))

/-- One message-schedule extension step. -/
def schedStep (w : List ℕ) (_i : ℕ) : List ℕ :=
  let n := w.length
  w ++ [(w.getD (n - 16) 0 + ssig0 (w.getD (n - 15) 0) +
         w.getD (n - 7) 0 + ssig1 (w.getD (n - 2) 0)) % M32]

/-- Extend the 16 schedule words to 64. -/
def schedule (ws : List ℕ) : List ℕ := (List.range 48).foldl schedStep ws

/-- One SHA-256 compression round on the 8-word working state. -/
def shaRound (w : List ℕ) (st : List ℕ) (i : ℕ) : List ℕ :=
  let a := st.getD 0 0
  let b := st.getD 1 0
  let c := st.getD 2 0
  let d := st.getD 3 0
  let e := st.getD 4 0
  let f := st.getD 5 0
  let g := st.getD 6 0
  let h := st.getD 7 0
  let t1 := (h + bsig1 e + chf e f g + K256.getD i 0 + w.getD i 0) % M32
  let t2 := (bsig0 a + majf a b c) % M32
  [(t1 + t2) % M32, a, b, c, (d + t1) % M32, e, f, g]

/-- Compress one block into the hash state. -/
def shaCompress (st : List ℕ) (block : List ℕ) : List ℕ :=
  let out := (List.range 64).foldl (shaRound (schedule (blockWords block))) st
  (st.zip out).map (fun p => (p.1 + p.2) % M32)

/-- SHA-256 digest of a byte list, as 32 bytes. -/
def sha256bytes (msg : List ℕ) : List ℕ :=
  ((shaBlocks (shaPad msg)).foldl shaCompress H256).flatMap
    (fun x => [(x >>> 24) % 256, (x >>> 16) % 256, (x >>> 8) % 256, x % 256])

/-- Lowercase hex digit. -/
def hexDigit (n : ℕ) : Char := "0123456789abcdef".data.getD n '0'

/-- Two hex digits of a byte. -/
def hexByte (b : ℕ) : List Char := [hexDigit (b / 16), hexDigit (b % 16)]

/-- Hex encoding of a byte list. -/
def hexOfBytes (bs : List ℕ) : String := String.mk (bs.flatMap hexByte)

/-- UTF-8 encoding of one character (`str.encode()`). -/
def utf8Bytes (c : Char) : List ℕ :=
  let n := c.toNat
  if n < 128 then [n]
  else if n < 2048 then [192 + (n >>> 6), 128 + (n &&& 63)]
  else if n < 65536 then
    [224 + (n >>> 12), 128 + ((n >>> 6) &&& 63), 128 + (n &&& 63)]
  else
    [240 + (n >>> 18), 128 + ((n >>> 12) &&& 63), 128 + ((n >>> 6) &&& 63), 128 + (n &&& 63)]

/-- `text.encode()`: UTF-8 bytes of a string. -/
def strBytes (s : String) : List ℕ := s.data.flatMap utf8Bytes

/-- `hashlib.sha256(text.encode()).hexdigest()`. -/
def sha256hex (s : String) : String := hexOfBytes (sha256bytes (strBytes s))

-- Standard test vector anchoring the SHA-256 embedding.
example : sha256hex "abc" =
    "ba7816bf8f01cfea414140de5dae2223b00361a396177a9cb410ff61f20015ad" := by decide

/-! ## deduplicator.py : Deduplicator -/

/-- The ASCII fragment of Python's regex class `\w`: letters, digits and
underscore (every statement exercised in this development is ASCII). -/
def pyIsWordChar (c : Char) : Bool := c.isAlpha || c.isDigit || c = '_'

/-- deduplicator.py `create_fingerprint`, step
`re.sub(r'[^\w\s]', ' ', text)`: the single-character class matches each
character that is neither a word character nor whitespace, and each match
is replaced by one space.  Written as the left-to-right scan the regex
engine performs. -/
def removePunct : List Char → List Char
  | [] => []
  | c :: t => (if pyIsWordChar c || pyIsSpace c then c else ' ') :: removePunct t

/-- deduplicator.py `create_fingerprint`, step `re.sub(r'\d+', '<num>', text)`:
each maximal run of digits collapses to the placeholder `<num>`.  The
`inRun` flag records whether the scan is inside a digit run already
replaced. -/
def numSub : Bool → List Char → List Char
  | _, [] => []
  | inRun, c :: t =>
    if c.isDigit then
      if inRun then numSub true t else "<num>".data ++ numSub true t
    else
      c :: numSub false t

/-- Modelled from the spec: the English stopword corpus of the external
NLTK library (`stopwords.words('english')`), data not part of this
repository.  No statement fingerprinted in this development contains a
stopword, so only the absence of its content words from this list is
load-bearing. -/
def en_stopwords : List String :=
  ["i", "me", "my", "myself", "we", "our", "ours", "ourselves", "you", "you\x27re",
   "you\x27ve", "you\x27ll", "you\x27d", "your", "yours", "yourself", "yourselves",
   "he", "him", "his", "himself", "she", "she\x27s", "her", "hers", "herself",
   "it", "it\x27s", "its", "itself", "they", "them", "their", "theirs", "themselves",
   "what", "which", "who", "whom", "this", "that", "that\x27ll", "these", "those",
   "am", "is", "are", "was", "were", "be", "been", "being", "have", "has", "had",
   "having", "do", "does", "did", "doing", "a", "an", "the", "and", "but", "if",
   "or", "because", "as", "until", "while", "of", "at", "by", "for", "with",
   "about", "against", "between", "into", "through", "during", "before", "after",
   "above", "below", "to", "from", "up", "down", "in", "out", "on", "off", "over",
   "under", "again", "further", "then", "once", "here", "there", "when", "where",
   "why", "how", "all", "any", "both", "each", "few", "more", "most", "other",
   "some", "such", "no", "nor", "not", "only", "own", "same", "so", "than", "too",
   "very", "s", "t", "can", "will", "just", "don", "don\x27t", "should",
   "should\x27ve", "now", "d", "ll", "m", "o", "re", "ve", "y", "ain", "aren",
   "aren\x27t", "couldn", "couldn\x27t", "didn", "didn\x27t", "doesn",
   "doesn\x27t", "hadn", "hadn\x27t", "hasn", "hasn\x27t", "haven", "haven\x27t",
   "isn", "isn\x27t", "ma", "mightn", "mightn\x27t", "mustn", "mustn\x27t",
   "needn", "needn\x27t", "shan", "shan\x27t", "shouldn", "shouldn\x27t", "wasn",
   "wasn\x27t", "weren", "weren\x27t", "won", "won\x27t", "wouldn", "wouldn\x27t"]

/-- Modelled from the spec: the Dutch stopword corpus of the external
NLTK library (`stopwords.words('dutch')`). -/
def nl_stopwords : List String :=
  ["de", "en", "van", "ik", "te", "dat", "die", "in", "een", "hij", "het", "niet",
   "zijn", "is", "was", "op", "aan", "met", "als", "voor", "had", "er", "maar",
   "om", "hem", "dan", "zou", "of", "wat", "mijn", "men", "dit", "zo", "door",
   "over", "ze", "zich", "bij", "ook", "tot", "je", "mij", "uit", "der", "daar",
   "haar", "naar", "heb", "hoe", "heeft", "hebben", "deze", "u", "want", "nog",
   "zal", "me", "zij", "nu", "ge", "geen", "omdat", "iets", "worden", "toch",
   "al", "waren", "veel", "meer", "doen", "toen", "moet", "ben", "zonder", "kan",
   "hun", "dus", "alles", "onder", "ja", "eens", "hier", "wie", "werd", "altijd",
   "doch", "wordt", "wezen", "kunnen", "ons", "zelf", "tegen", "na", "reeds",
   "wil", "kon", "niets", "uw", "iemand", "geweest", "andere"]

/-- deduplicator.py `__init__`: `self.all_stopwords = en | nl`.  Only
membership is observed, so the concatenation models the set union. -/
def all_stopwords : List String := en_stopwords ++ nl_stopwords

/-- The normalization pipeline inside `create_fingerprint`, before the
hash: lowercase; replace `[^\w\s]` by spaces; collapse whitespace
(`' '.join(text.split())`); drop stopwords; rejoin; collapse digit runs
to `<num>`. -/
def fingerprintText (text : String) : String :=
  let lowered := text.data.map Char.toLower
  let depunct := removePunct lowered
  let collapsed := joinSpL (pySplitL depunct)
  let words := (pySplitL collapsed).filter
    (fun w => !(all_stopwords.contains (String.mk w)))
  String.mk (numSub false (joinSpL words))

/-- deduplicator.py `create_fingerprint`: SHA-256 hex digest of the
normalized text. -/
def create_fingerprint (text : String) : String :=
  sha256hex (fingerprintText text)

/-- The fingerprint of the challenge at index `i` (out-of-range indices
never occur in the source; the default record makes the embedding
total). -/
def fpAt (challenges : List Challenge) (i : ℕ) : String :=
  create_fingerprint ((challenges.getD i default).challenge_statement)

/-- The statement of the challenge at index `i`. -/
def statementAt (challenges : List Challenge) (i : ℕ) : String :=
  (challenges.getD i default).challenge_statement

/-- The indices `find_duplicates` fingerprints: those whose statement is
truthy (non-empty), in order. -/
def validIndices (challenges : List Challenge) : List ℕ :=
  (List.range challenges.length).filter (fun i => statementAt challenges i ≠ "")

/-- The fingerprint keys of `fingerprint_map` in insertion order (a
Python dict iterates its keys in first-insertion order). -/
def fpOrder (challenges : List Challenge) : List String :=
  firstDedup ((validIndices challenges).map (fpAt challenges))

/-- The bucket of `fingerprint_map` under key `f`: the valid indices with
fingerprint `f`, in ascending order (the order they were appended). -/
def fpBucket (challenges : List Challenge) (f : String) : List ℕ :=
  (validIndices challenges).filter (fun i => fpAt challenges i = f)

/-- deduplicator.py `find_duplicates`: bucket the non-empty-statement
challenges by fingerprint, return the buckets with at least two members,
in key-insertion order. -/
def find_duplicates (challenges : List Challenge) : List (List ℕ) :=
  ((fpOrder challenges).map (fpBucket challenges)).filter (fun g => 1 < g.length)

/-- `challenges[i].get('confidence', 0)` as the merge's sort key reads it. -/
def confAt (challenges : List Challenge) (i : ℕ) : ℚ :=
  (challenges.getD i default).confidence

/-- Stable insertion (descending by key) implementing Python's stable
`sorted(..., reverse=True)`: an element moves past exactly the elements
with strictly greater key, so equal keys keep their original order.
Stable sorting is extensionally unique, so any stable algorithm embeds
`sorted`. -/
def insertDesc (key : ℕ → ℚ) (a : ℕ) : List ℕ → List ℕ
  | [] => [a]
  | b :: t => if key a < key b then b :: insertDesc key a t else a :: b :: t

/-- Stable descending sort by `key` (Python
`sorted(group, key=..., reverse=True)`). -/
def sortDesc (key : ℕ → ℚ) : List ℕ → List ℕ
  | [] => []
  | a :: t => insertDesc key a (sortDesc key t)

/-- deduplicator.py `merge_duplicates`: the indices one group contributes
to `indices_to_remove` — every member of the confidence-sorted group
except the primary (its head), guarded by `idx < len(challenges)`;
groups of fewer than two members are skipped. -/
def groupRemoved (challenges : List Challenge) (group : List ℕ) : Finset ℕ :=
  if group.length < 2 then ∅
  else (((sortDesc (confAt challenges) group).tail).filter
    (fun i => decide (i < challenges.length))).toFinset

/-- deduplicator.py `merge_duplicates`: the full `indices_to_remove` set. -/
def indicesToRemove (challenges : List Challenge) (groups : List (List ℕ)) : Finset ℕ :=
  groups.foldl (fun s g => s ∪ groupRemoved challenges g) ∅

/-- The primary of a group: the head of the confidence-sorted group. -/
def primaryOf (challenges : List Challenge) (group : List ℕ) : ℕ :=
  (sortDesc (confAt challenges) group).headD 0

/-- First-seen deduplicating union of string lists, the deterministic
order fixed for Python's unordered `set` union (only the resulting
element set is ever observed by the claims). -/
def firstDedupUnion (ls : List (List String)) : List String :=
  firstDedup ls.flatten

/-- deduplicator.py `merge_duplicates`: the update applied to a group's
primary — evidence quotes become the union over the group truncated to
two, root causes and constraints the unions, `merged_from` the group
size.  Members are visited primary first, then the rest of the sorted
group under the `idx < len` guard, as the source loop does. -/
def mergeUpdate (challenges : List Challenge) (group : List ℕ) (c : Challenge) : Challenge :=
  let members := primaryOf challenges group ::
    ((sortDesc (confAt challenges) group).tail).filter
      (fun i => decide (i < challenges.length))
  { c with
    evidence_quotes :=
      (firstDedupUnion (members.map (fun i => (challenges.getD i default).evidence_quotes))).take 2
    root_causes :=
      firstDedupUnion (members.map (fun i => (challenges.getD i default).root_causes))
    constraints :=
      firstDedupUnion (members.map (fun i => (challenges.getD i default).constraints))
    merged_from := some group.length }

/-- deduplicator.py `merge_duplicates`: primaries updated in place, the
removed indices dropped, everything else passed through.  (The groups
handed to it by the source are the pairwise-disjoint output of
`find_duplicates`, so per-index lookup of the owning group is faithful.) -/
def merge_duplicates (challenges : List Challenge) (groups : List (List ℕ)) : List Challenge :=
  ((List.range challenges.length).filter
      (fun i => decide (i ∉ indicesToRemove challenges groups))).map
    (fun i =>
      match groups.find? (fun g => decide (¬ g.length < 2) && decide (primaryOf challenges g = i)) with
      | some g => mergeUpdate challenges g (challenges.getD i default)
      | none => challenges.getD i default)

/-! ## pipeline.py : the persistence-layer deletion pass -/

/-- pipeline.py `_deduplicate_challenges`, lines 200-205: for each
duplicate group the pass keeps the first listed index and deletes the
backing record of every later one (guarded by `idx < len`).  The set of
deleted indices. -/
def pipelineDeletedIndices (groups : List (List ℕ)) (n : ℕ) : Finset ℕ :=
  groups.foldl (fun s g => s ∪ (g.tail.filter (fun i => decide (i < n))).toFinset) ∅

/-! ## chunker.py : TextChunker.chunk_by_size -/

/-- A chunk dict as `chunk_by_size` produces it. -/
structure ChunkRec where
  text : String
  index : ℕ
  method : String
  word_count : ℕ
  deriving DecidableEq, Repr

/-- The text of the window `words[start:e]`, `" ".join`-ed. -/
def chunkWindowText (words : List String) (start e : ℕ) : String :=
  joinSp ((words.drop start).take (e - start))

/-- The loop body of chunker.py `chunk_by_size`, with explicit fuel (the
loop advances `start` by at least `chunk_size - overlap_size` each pass,
so `words.length + 1` fuel is never exhausted; for
`overlap_size ≥ chunk_size` the source loop would not terminate, and the
embedding cuts that branch — the pipeline always runs with
`overlap_size = 150 < 1000 = chunk_size`).  A window is kept when its
stripped text exceeds 50 characters; `chunk_index` advances only for kept
windows; `start` moves to `end - overlap_size` unless `end` reached the
last word. -/
def chunkStep (chunk_size overlap_size : ℕ) (words : List String) :
    ℕ → ℕ → ℕ → List ChunkRec
  | 0, _, _ => []
  | fuel + 1, start, chunk_index =>
    if start < words.length then
      let e := min (start + chunk_size) words.length
      let chunk_text := chunkWindowText words start e
      let keep := 50 < (pyStrip chunk_text.data).length
      let here := if keep then
        [{ text := chunk_text, index := chunk_index, method := "fixed_size",
           word_count := e - start }] else []
      let next_index := if keep then chunk_index + 1 else chunk_index
      let rest :=
        if e < words.length then
          if start < e - overlap_size then
            chunkStep chunk_size overlap_size words fuel (e - overlap_size) next_index
          else []
        else []
      here ++ rest
    else []

/-- chunker.py `chunk_by_size`: split into fixed-size overlapping word
windows. -/
def chunk_by_size (chunk_size overlap_size : ℕ) (text : String) : List ChunkRec :=
  let words := pySplit text
  chunkStep chunk_size overlap_size words (words.length + 1) 0 0

/-- The `(start, end)` window sequence the `chunk_by_size` loop visits
(kept or not), same fuel convention. -/
def windowsFrom (chunk_size overlap_size n : ℕ) : ℕ → ℕ → List (ℕ × ℕ)
  | 0, _ => []
  | fuel + 1, start =>
    if start < n then
      let e := min (start + chunk_size) n
      (start, e) ::
        (if e < n then
          if start < e - overlap_size then
            windowsFrom chunk_size overlap_size n fuel (e - overlap_size)
          else []
        else [])
    else []

/-- All windows `chunk_by_size` visits on `text`. -/
def chunkWindows (chunk_size overlap_size : ℕ) (text : String) : List (ℕ × ℕ) :=
  windowsFrom chunk_size overlap_size (pySplit text).length ((pySplit text).length + 1) 0

/-- The claim's round-trip reading: the word sequences of the chunks in
order, each chunk after the first with its leading `overlap_size`-word
overlap region removed. -/
def reconstructWords (overlap_size : ℕ) (chunks : List ChunkRec) : List String :=
  match chunks with
  | [] => []
  | c0 :: rest =>
    pySplit c0.text ++ rest.flatMap (fun c => (pySplit c.text).drop overlap_size)

/-! ## database.py / pipeline.py : the state the extraction pass touches -/

/-- A `raw_document` row (the columns the extraction pass reads). -/
structure RawDoc where
  doc_id : ℕ
  feed_id : ℕ
  url : String := ""
  text_content : Option String := none
  deriving DecidableEq, Repr

/-- A `source_feed` row. -/
structure SourceFeed where
  feed_id : ℕ
  org_id : ℕ
  deriving DecidableEq, Repr

/-- An `org` row. -/
structure OrgRow where
  org_id : ℕ
  org_name : String := ""
  deriving DecidableEq, Repr

/-- A `processing_state` row; `(doc_id, stage)` is its conflict key. -/
structure ProcState where
  doc_id : ℕ
  stage : String
  status : String
  error_message : Option String := none
  deriving DecidableEq, Repr

/-- A `challenge` row (the columns the claims observe). -/
structure ChallengeRow where
  challenge_id : ℕ
  doc_id : ℕ
  org_id : ℕ
  challenge_statement : String := ""
  statement_fingerprint : Option String := none
  deriving DecidableEq, Repr

/-- The record store, rows in insertion order. -/
structure DBState where
  docs : List RawDoc := []
  feeds : List SourceFeed := []
  orgs : List OrgRow := []
  states : List ProcState := []
  challenges : List ChallengeRow := []
  next_challenge_id : ℕ := 0
  deriving DecidableEq, Repr

/-- A row of the join `get_unprocessed_documents` returns. -/
structure JoinedDoc where
  doc_id : ℕ
  org_id : ℕ
  org_name : String
  url : String
  text_content : String
  deriving DecidableEq, Repr

/-- Does a `processing_state` row exist for `(doc_id, stage)`?  (The
`LEFT JOIN ... WHERE ps.state_id IS NULL` of the source query keeps
exactly the documents for which no such row exists.) -/
def hasStateRow (db : DBState) (doc_id : ℕ) (stage : String) : Bool :=
  db.states.any (fun p => decide (p.doc_id = doc_id ∧ p.stage = stage))

/-- database.py `get_unprocessed_documents`: join documents to their feed
and org, keep those with text content and no processing-state row for the
stage, up to `limit` rows (the query has no ORDER BY; table order stands
in for the unspecified result order). -/
def get_unprocessed_documents (db : DBState) (stage : String) (limit : ℕ) :
    List JoinedDoc :=
  (db.docs.flatMap (fun d =>
    (db.feeds.filter (fun f => decide (f.feed_id = d.feed_id))).flatMap (fun f =>
      (db.orgs.filter (fun o => decide (o.org_id = f.org_id))).filterMap (fun o =>
        if ¬ hasStateRow db d.doc_id stage ∧ d.text_content ≠ none then
          some { doc_id := d.doc_id, org_id := f.org_id, org_name := o.org_name,
                 url := d.url, text_content := d.text_content.getD "" }
        else none)))).take limit

/-- database.py `mark_processing_state`: upsert on `(doc_id, stage)`. -/
def mark_processing_state (db : DBState) (doc_id : ℕ) (stage status : String)
    (error : Option String) : DBState :=
  { db with states :=
      if db.states.any (fun p => decide (p.doc_id = doc_id ∧ p.stage = stage)) then
        db.states.map (fun p =>
          if p.doc_id = doc_id ∧ p.stage = stage then
            { p with status := status, error_message := error }
          else p)
      else
        db.states ++ [{ doc_id := doc_id, stage := stage, status := status,
                        error_message := error }] }

/-- database.py `insert_challenge` (the observed columns): append a row
under a fresh id. -/
def insert_challenge (db : DBState) (doc_id org_id : ℕ) (c : Challenge) : DBState :=
  { db with
    challenges := db.challenges ++
      [{ challenge_id := db.next_challenge_id, doc_id := doc_id, org_id := org_id,
         challenge_statement := c.challenge_statement,
         statement_fingerprint := c.statement_fingerprint }]
    next_challenge_id := db.next_challenge_id + 1 }

/-- deduplicator.py `add_fingerprints`: stamp every challenge with a
truthy statement. -/
def add_fingerprints (challenges : List Challenge) : List Challenge :=
  challenges.map (fun c =>
    if c.challenge_statement ≠ "" then
      { c with statement_fingerprint := some (create_fingerprint c.challenge_statement) }
    else c)

/-- The per-document body of pipeline.py `_extract_challenges` (the
no-exception path): chunk, extract, fingerprint, insert each challenge,
mark the terminal state (`skipped` when no chunks, else `completed`). -/
def extractDocStep (chunkDoc : String → List ChunkRec)
    (extractBatch : List ChunkRec → List Challenge)
    (st : DBState) (d : JoinedDoc) : DBState :=
  let chunks := chunkDoc d.text_content
  if chunks = [] then
    mark_processing_state st d.doc_id "extraction" "skipped" (some "No chunks")
  else
    let all_challenges := extractBatch chunks
    if all_challenges = [] then
      mark_processing_state st d.doc_id "extraction" "completed" none
    else
      let withFp := add_fingerprints all_challenges
      let st1 := withFp.foldl (fun acc ch => insert_challenge acc d.doc_id d.org_id ch) st
      mark_processing_state st1 d.doc_id "extraction" "completed" none

/-- pipeline.py `_extract_challenges`: fetch the batch of unprocessed
documents once, then run the per-document body over it.  The chunker and
the LLM extraction collaborator are parameters: the claim over them is
quantified, matching their role as external collaborators. -/
def extract_challenges_pass (chunkDoc : String → List ChunkRec)
    (extractBatch : List ChunkRec → List Challenge)
    (db : DBState) (batch_size : ℕ) : DBState :=
  (get_unprocessed_documents db "extraction" batch_size).foldl
    (extractDocStep chunkDoc extractBatch) db

/-! ## Helper lemmas -/

/-- `int(q)` is the floor for non-negative values. -/
theorem pyInt_eq_floor {q : ℚ} (h : 0 ≤ q) : pyInt q = ⌊q⌋ := by
  simp [pyInt, h]

/-- Floor bounds transfer: a rational in `[0, 100]` floors into
`[0, 100]`. -/
theorem floor_mem_Icc {q : ℚ} (h0 : 0 ≤ q) (h1 : q ≤ 100) :
    0 ≤ ⌊q⌋ ∧ ⌊q⌋ ≤ 100 := by
  constructor
  · exact_mod_cast Int.le_floor.mpr (by exact_mod_cast h0)
  · have := Int.floor_le_floor h1
    simpa using this

/-- The density formula lies in `[0, 100]`. -/
theorem score_challenge_density_bounds (t : String) :
    0 ≤ score_challenge_density t ∧ score_challenge_density t ≤ 100 := by
  unfold score_challenge_density
  dsimp only
  split_ifs
  · norm_num
  · norm_num
  · exact ⟨le_min (by norm_num)
      (mul_nonneg (mul_nonneg (div_nonneg (Nat.cast_nonneg _) (Nat.cast_nonneg _))
        (by norm_num)) (by norm_num)), min_le_left _ _⟩

/-- The leakage formula lies in `[0, 100]`. -/
theorem score_solution_leakage_bounds (t : String) :
    0 ≤ score_solution_leakage t ∧ score_solution_leakage t ≤ 100 := by
  unfold score_solution_leakage
  dsimp only
  split_ifs
  · norm_num
  · norm_num
  · exact ⟨le_min (by norm_num)
      (mul_nonneg (mul_nonneg (div_nonneg (Nat.cast_nonneg _) (Nat.cast_nonneg _))
        (by norm_num)) (by norm_num)), min_le_left _ _⟩

/-- The specificity rubric lies in `[0, 100]`. -/
theorem score_specificity_bounds (c : Challenge) :
    0 ≤ score_specificity c ∧ score_specificity c ≤ 100 := by
  unfold score_specificity
  dsimp only
  refine ⟨le_min (by norm_num) ?_, min_le_left _ _⟩
  split_ifs <;> norm_num

/-- The evidence rubric lies in `[0, 100]`. -/
theorem score_evidence_bounds (c : Challenge) :
    0 ≤ score_evidence c ∧ score_evidence c ≤ 100 := by
  unfold score_evidence
  dsimp only
  refine ⟨le_min (by norm_num) ?_, min_le_left _ _⟩
  split_ifs <;> norm_num

/-- The clamped composite lies in `[0, 100]`. -/
theorem score_overall_bounds (c : Challenge) :
    0 ≤ score_overall c ∧ score_overall c ≤ 100 := by
  unfold score_overall
  exact ⟨le_max_left _ _, max_le (by norm_num) (min_le_left _ _)⟩

/-! ## Claim C6 : scoring bounds and flooring -/

/-- Claim C6: for every challenge record, each of the five sub-scores and
the overall score returned by `score_challenge` is an integer in
`[0, 100]`, each the floor of its underlying (non-negative) rational
value. -/
theorem scoring_bounds_and_floor (c : Challenge) :
    ((score_challenge c).challenge_density =
        some ⌊score_challenge_density c.challenge_statement⌋ ∧
      0 ≤ ⌊score_challenge_density c.challenge_statement⌋ ∧
      ⌊score_challenge_density c.challenge_statement⌋ ≤ 100) ∧
    ((score_challenge c).solution_leakage =
        some ⌊score_solution_leakage c.challenge_statement⌋ ∧
      0 ≤ ⌊score_solution_leakage c.challenge_statement⌋ ∧
      ⌊score_solution_leakage c.challenge_statement⌋ ≤ 100) ∧
    ((score_challenge c).specificity = some ⌊score_specificity c⌋ ∧
      0 ≤ ⌊score_specificity c⌋ ∧ ⌊score_specificity c⌋ ≤ 100) ∧
    ((score_challenge c).evidence_strength = some ⌊score_evidence c⌋ ∧
      0 ≤ ⌊score_evidence c⌋ ∧ ⌊score_evidence c⌋ ≤ 100) ∧
    ((score_challenge c).recency_score = some ⌊score_recency c⌋ ∧
      0 ≤ ⌊score_recency c⌋ ∧ ⌊score_recency c⌋ ≤ 100) ∧
    ((score_challenge c).overall_score = some ⌊score_overall c⌋ ∧
      0 ≤ ⌊score_overall c⌋ ∧ ⌊score_overall c⌋ ≤ 100) := by
  obtain ⟨d0, d1⟩ := score_challenge_density_bounds c.challenge_statement
  obtain ⟨l0, l1⟩ := score_solution_leakage_bounds c.challenge_statement
  obtain ⟨s0, s1⟩ := score_specificity_bounds c
  obtain ⟨e0, e1⟩ := score_evidence_bounds c
  obtain ⟨o0, o1⟩ := score_overall_bounds c
  have r0 : (0:ℚ) ≤ score_recency c := by norm_num [score_recency]
  have r1 : score_recency c ≤ 100 := by norm_num [score_recency]
  refine ⟨⟨?_, floor_mem_Icc d0 d1⟩, ⟨?_, floor_mem_Icc l0 l1⟩,
    ⟨?_, floor_mem_Icc s0 s1⟩, ⟨?_, floor_mem_Icc e0 e1⟩,
    ⟨?_, floor_mem_Icc r0 r1⟩, ⟨?_, floor_mem_Icc o0 o1⟩⟩ <;>
    simp [score_challenge, pyInt_eq_floor, d0, l0, s0, e0, r0, o0]

/-! ## Claim C2 : the composite scenario -/

/-- The composite scenario of the spec: the clean-water statement with
geography, one target group, one evidence quote, one root cause, one
constraint, confidence 0.85, no scale numbers or sectors. -/
def compositeScenario : Challenge :=
  { challenge_statement :=
      "Over 500 million people lack access to clean water due to inadequate infrastructure"
    geography := "Sub-Saharan Africa"
    target_groups := ["rural communities"]
    evidence_quotes := ["Over 500 million people lack access to clean water"]
    root_causes := ["inadequate infrastructure"]
    constraints := ["infrastructure"]
    confidence := 85 / 100 }

/-- The exact rational sub-scores on the composite scenario: density and
leakage 0 (no keyword of either set occurs in the statement), specificity
50 (geography +30, target groups +20), evidence 100, composite
`0.25*50 + 0.20*100 + 0.10*70 = 39.5`. -/
theorem compositeScenario_subscores :
    score_challenge_density compositeScenario.challenge_statement = 0 ∧
    score_solution_leakage compositeScenario.challenge_statement = 0 ∧
    score_specificity compositeScenario = 50 ∧
    score_evidence compositeScenario = 100 ∧
    score_overall compositeScenario = 79 / 2 := by
  have hd : score_challenge_density compositeScenario.challenge_statement = 0 := by
    unfold score_challenge_density
    rw [if_neg (show ¬(compositeScenario.challenge_statement = "") from by decide)]
    dsimp only
    rw [show (challenge_keywords.filter (fun k => pyInStr k
          (String.mk (compositeScenario.challenge_statement.data.map Char.toLower)))).length = 0
        from by decide,
      show (pySplit compositeScenario.challenge_statement).length = 13 from by decide]
    norm_num
  have hl : score_solution_leakage compositeScenario.challenge_statement = 0 := by
    unfold score_solution_leakage
    rw [if_neg (show ¬(compositeScenario.challenge_statement = "") from by decide)]
    dsimp only
    rw [show (solution_keywords.filter (fun k => pyInStr k
          (String.mk (compositeScenario.challenge_statement.data.map Char.toLower)))).length = 0
        from by decide,
      show (pySplit compositeScenario.challenge_statement).length = 13 from by decide]
    norm_num
  have hs : score_specificity compositeScenario = 50 := by
    unfold score_specificity
    dsimp only
    rw [if_neg (show ¬(compositeScenario.scale_numbers ≠ []) from by decide),
      if_pos (show compositeScenario.geography ≠ "" from by decide),
      if_pos (show compositeScenario.target_groups ≠ [] ∧
        0 < compositeScenario.target_groups.length from by decide),
      if_neg (show ¬(compositeScenario.sectors ≠ [] ∧
        0 < compositeScenario.sectors.length) from by decide)]
    norm_num
  have he : score_evidence compositeScenario = 100 := by
    unfold score_evidence
    dsimp only
    rw [if_pos (show compositeScenario.evidence_quotes ≠ [] ∧
        0 < compositeScenario.evidence_quotes.length from by decide),
      if_pos (show compositeScenario.root_causes ≠ [] ∧
        0 < compositeScenario.root_causes.length from by decide),
      if_pos (show compositeScenario.constraints ≠ [] ∧
        0 < compositeScenario.constraints.length from by decide)]
    norm_num
  have ho : score_overall compositeScenario = 79 / 2 := by
    unfold score_overall score_overall_raw
    rw [hd, hl, hs, he]
    norm_num [score_recency, CHALLENGE_DENSITY_WEIGHT, SPECIFICITY_WEIGHT,
      EVIDENCE_WEIGHT, RECENCY_WEIGHT, SOLUTION_LEAKAGE_WEIGHT]
  exact ⟨hd, hl, hs, he, ho⟩

/-- Claim C2, counterexample: on the composite scenario the code returns
specificity 50 — not 70 — (the rubric only grants geography +30 and
target_groups +20 here) and overall score 39, which does not exceed the
40-point threshold; the claimed `specificity = 70 ∧ overall > 40` is
false. -/
theorem composite_scenario_counterexample :
    (score_challenge compositeScenario).specificity = some 50 ∧
    (score_challenge compositeScenario).evidence_strength = some 100 ∧
    (score_challenge compositeScenario).overall_score = some 39 ∧
    ¬ ((score_challenge compositeScenario).specificity = some 70 ∧
       ∃ v, (score_challenge compositeScenario).overall_score = some v ∧ 40 < v) := by
  obtain ⟨-, -, hs, -, ho⟩ := compositeScenario_subscores
  have h1 : (score_challenge compositeScenario).specificity = some 50 := by
    unfold score_challenge
    rw [hs]
    norm_num [pyInt]
  have h3 : (score_challenge compositeScenario).overall_score = some 39 := by
    unfold score_challenge
    rw [ho]
    norm_num [pyInt]
  refine ⟨h1, ?_, h3, ?_⟩
  · obtain ⟨-, -, -, he, -⟩ := compositeScenario_subscores
    unfold score_challenge
    rw [he]
    norm_num [pyInt]
  · rintro ⟨h70, -⟩
    rw [h1] at h70
    exact absurd (Option.some.inj h70) (by decide)

/-- Claim C2, amended: on the composite scenario `score_challenge`
returns specificity 50, evidence_strength 100, and overall score 39,
which falls strictly below the 40-point filter threshold. -/
theorem composite_scenario_amended :
    (score_challenge compositeScenario).specificity = some 50 ∧
    (score_challenge compositeScenario).evidence_strength = some 100 ∧
    (score_challenge compositeScenario).overall_score = some 39 ∧
    ((score_challenge compositeScenario).overall_score.getD 0) < MIN_OVERALL_SCORE := by
  obtain ⟨-, -, hs, he, ho⟩ := compositeScenario_subscores
  have h3 : (score_challenge compositeScenario).overall_score = some 39 := by
    unfold score_challenge
    rw [ho]
    norm_num [pyInt]
  refine ⟨?_, ?_, h3, ?_⟩
  · unfold score_challenge
    rw [hs]
    norm_num [pyInt]
  · unfold score_challenge
    rw [he]
    norm_num [pyInt]
  · rw [h3]
    decide

/-! ## Claim C3 : fingerprint number-insensitivity -/

/-- Claim C3: the two water-scarcity statements differing only in the
number fingerprint identically (maximal digit runs collapse to the
`<num>` placeholder) and both differ from the food-insecurity
statement's fingerprint. -/
theorem fingerprint_number_collapse :
    create_fingerprint "Water scarcity affects 500 million people" =
      create_fingerprint "Water scarcity affects 650 million people" ∧
    create_fingerprint "Water scarcity affects 500 million people" ≠
      create_fingerprint "Food insecurity affects rural areas" := by
  constructor
  · decide
  · decide

/-! ## Claim C4 : the punctuation-replacement step -/

/-- Claim C4, counterexample: the underscore is not a letter, digit, or
whitespace, yet `re.sub(r'[^\w\s]', ' ', ...)` keeps it (it belongs to
`\w`), so the step does not replace every non-letter/digit/whitespace
character. -/
theorem punct_step_counterexample :
    removePunct "a_b".data = "a_b".data ∧
    ('_'.isAlpha = false ∧ '_'.isDigit = false ∧ pyIsSpace '_' = false) ∧
    removePunct "a_b".data ≠ "a b".data := by
  exact ⟨by decide, by decide, by decide⟩

/-- Claim C4, amended: after lowercasing, every character that is not a
letter, digit, underscore, or whitespace is replaced by a single space
before whitespace collapsing — characterized position by position over
the scan. -/
theorem punct_step_amended (l : List Char) :
    (removePunct l).length = l.length ∧
    ∀ i, i < l.length →
      (removePunct l).getD i ' ' =
        if (l.getD i ' ').isAlpha ∨ (l.getD i ' ').isDigit ∨ l.getD i ' ' = '_' ∨
            pyIsSpace (l.getD i ' ')
        then l.getD i ' ' else ' ' := by
  induction l with
  | nil => exact ⟨rfl, fun i hi => absurd hi (by simp)⟩
  | cons c t ih =>
    refine ⟨by simpa [removePunct] using ih.1, ?_⟩
    intro i hi
    cases i with
    | zero =>
      simp only [removePunct, List.getD_cons_zero]
      have hiff : (pyIsWordChar c || pyIsSpace c) = true ↔
          (c.isAlpha ∨ c.isDigit ∨ c = '_' ∨ pyIsSpace c) := by
        simp [pyIsWordChar, or_assoc]
      split_ifs with h1 h2 h2 <;> simp_all
    | succ j =>
      simp only [removePunct, List.getD_cons_succ]
      exact ih.2 j (by simpa using Nat.lt_of_succ_lt_succ hi)

/-- Witness: the amended step at the concrete input `"a_b!"`, position 3
(the `!`, which is replaced by a space). -/
theorem punct_step_amended_witness :
    (removePunct "a_b!".data).getD 3 ' ' = ' ' := by
  have h := (punct_step_amended "a_b!".data).2 3 (by decide)
  rw [h]
  decide

/-! ## Claim C5 : the filter thresholds -/

/-- Claim C5: over a scored list and the default thresholds, a challenge
is in the output of `filter_challenges` iff it is in the input with
overall score at least 40, confidence at least 0.50, and solution
leakage at most 70 (so overall 39 is excluded, overall 40 included).
The `hscored` hypothesis states every input record carries a score dict
with the two read keys present, as the claim's "scored challenges"
requires. -/
theorem filter_challenges_membership (challenges : List Challenge) (c : Challenge)
    (hscored : ∀ x ∈ challenges, x.score.isSome ∧
      ((x.score.getD {}).overall_score).isSome ∧
      ((x.score.getD {}).solution_leakage).isSome) :
    c ∈ filter_challenges_default challenges ↔
      c ∈ challenges ∧ 40 ≤ getOverall c ∧ (50 : ℚ) / 100 ≤ c.confidence ∧
        getLeakage c ≤ 70 := by
  unfold filter_challenges_default filter_challenges
  rw [List.mem_filter]
  simp [decide_eq_true_eq, and_assoc]

/-- A scored challenge sitting exactly on the 40-point boundary. -/
def cOver40 : Challenge :=
  { confidence := 1, score := some { overall_score := some 40, solution_leakage := some 0 } }

/-- A scored challenge one point below the 40-point boundary. -/
def cOver39 : Challenge :=
  { confidence := 1, score := some { overall_score := some 39, solution_leakage := some 0 } }

/-- Witness: on a concrete scored pair, overall 40 is kept and overall 39
is dropped. -/
theorem filter_challenges_membership_witness :
    cOver40 ∈ filter_challenges_default [cOver40, cOver39] ∧
    cOver39 ∉ filter_challenges_default [cOver40, cOver39] := by
  constructor
  · exact (filter_challenges_membership [cOver40, cOver39] cOver40 (by decide)).mpr
      ⟨by decide, by decide, by norm_num [cOver40], by decide⟩
  · intro hmem
    have h := (filter_challenges_membership [cOver40, cOver39] cOver39 (by decide)).mp hmem
    exact absurd h.2.1 (by decide)

/-! ## Claim C10 : missing scores are excluded -/

/-- Claim C10: a challenge with no `score` entry, or whose score dict
lacks the `overall_score` key, reads back an overall score of 0 and is
therefore never in the output of `filter_challenges` at the default
thresholds, regardless of its confidence. -/
theorem filter_missing_score_excluded (challenges : List Challenge) (c : Challenge)
    (h : c.score = none ∨ (c.score.getD {}).overall_score = none) :
    getOverall c = 0 ∧ c ∉ filter_challenges_default challenges := by
  have h0 : getOverall c = 0 := by
    unfold getOverall
    rcases h with h | h
    · rw [h]
      rfl
    · rw [h]
      rfl
  refine ⟨h0, ?_⟩
  intro hmem
  unfold filter_challenges_default filter_challenges at hmem
  rw [List.mem_filter] at hmem
  have hcond := hmem.2
  rw [decide_eq_true_eq] at hcond
  rw [h0] at hcond
  exact absurd hcond.1 (by decide)

/-- A challenge with full confidence and no score entry. -/
def unscoredChallenge : Challenge := { confidence := 1 }

/-- Witness: the unscored challenge reads overall 0 and is excluded. -/
theorem filter_missing_score_excluded_witness :
    getOverall unscoredChallenge = 0 ∧
    unscoredChallenge ∉ filter_challenges_default [unscoredChallenge] :=
  filter_missing_score_excluded [unscoredChallenge] unscoredChallenge (Or.inl rfl)

/-! ## Claim C9 : processing-state idempotence -/

/-- The challenge rows of a state for one document. -/
def challengesOfDoc (db : DBState) (d : ℕ) : List ChallengeRow :=
  db.challenges.filter (fun r => decide (r.doc_id = d))

/-- `mark_processing_state` does not touch the challenge table. -/
theorem mark_processing_state_challenges (db : DBState) (a : ℕ) (b c : String)
    (e : Option String) : (mark_processing_state db a b c e).challenges = db.challenges := by
  unfold mark_processing_state
  split <;> rfl

/-- Folding `insert_challenge` for one document leaves every other
document's challenge rows unchanged. -/
theorem insert_fold_other_doc (i o d : ℕ) (hne : i ≠ d) (cs : List Challenge) :
    ∀ st : DBState,
      challengesOfDoc (cs.foldl (fun acc ch => insert_challenge acc i o ch) st) d =
        challengesOfDoc st d := by
  induction cs with
  | nil => intro st; rfl
  | cons ch rest ih =>
    intro st
    rw [List.foldl_cons, ih]
    unfold challengesOfDoc insert_challenge
    simp [List.filter_append, hne]

/-- One `extractDocStep` on a document other than `d` leaves `d`'s
challenge rows unchanged. -/
theorem extractDocStep_other_doc (chunkDoc : String → List ChunkRec)
    (extractBatch : List ChunkRec → List Challenge) (st : DBState)
    (jd : JoinedDoc) (d : ℕ) (hne : jd.doc_id ≠ d) :
    challengesOfDoc (extractDocStep chunkDoc extractBatch st jd) d =
      challengesOfDoc st d := by
  unfold extractDocStep
  dsimp only
  split
  · unfold challengesOfDoc
    rw [mark_processing_state_challenges]
  · split
    · unfold challengesOfDoc
      rw [mark_processing_state_challenges]
    · unfold challengesOfDoc
      rw [mark_processing_state_challenges]
      exact insert_fold_other_doc jd.doc_id jd.org_id d hne _ st

/-- Claim C9: a document with a recorded `completed` processing state for
the extraction stage is never returned by `get_unprocessed_documents`
for that stage, and running the extraction pass (any chunker, any
extraction collaborator, any batch size) inserts no challenge row for
it. -/
theorem extraction_completed_idempotent (chunkDoc : String → List ChunkRec)
    (extractBatch : List ChunkRec → List Challenge) (db : DBState) (lim d : ℕ)
    (h : ∃ p ∈ db.states, p.doc_id = d ∧ p.stage = "extraction" ∧
      p.status = "completed") :
    (∀ jd ∈ get_unprocessed_documents db "extraction" lim, jd.doc_id ≠ d) ∧
    challengesOfDoc (extract_challenges_pass chunkDoc extractBatch db lim) d =
      challengesOfDoc db d := by
  obtain ⟨p, hp, hpd, hps, -⟩ := h
  have hrow : hasStateRow db d "extraction" = true := by
    unfold hasStateRow
    rw [List.any_eq_true]
    exact ⟨p, hp, by simp [hpd, hps]⟩
  have hsel : ∀ jd ∈ get_unprocessed_documents db "extraction" lim, jd.doc_id ≠ d := by
    intro jd hjd
    have hjd' := List.take_subset lim _ hjd
    rw [List.mem_flatMap] at hjd'
    obtain ⟨dr, -, hin⟩ := hjd'
    rw [List.mem_flatMap] at hin
    obtain ⟨f, -, hin⟩ := hin
    rw [List.mem_filterMap] at hin
    obtain ⟨o, -, hsome⟩ := hin
    by_cases hc : ¬ hasStateRow db dr.doc_id "extraction" ∧ dr.text_content ≠ none
    · rw [if_pos hc] at hsome
      cases hsome
      intro hd
      dsimp at hd
      rw [hd] at hc
      exact absurd hrow hc.1
    · rw [if_neg hc] at hsome
      cases hsome
  refine ⟨hsel, ?_⟩
  unfold extract_challenges_pass
  have : ∀ docs : List JoinedDoc, (∀ jd ∈ docs, jd.doc_id ≠ d) → ∀ st : DBState,
      challengesOfDoc (docs.foldl (extractDocStep chunkDoc extractBatch) st) d =
        challengesOfDoc st d := by
    intro docs
    induction docs with
    | nil => intro _ st; rfl
    | cons jd rest ih =>
      intro hall st
      rw [List.foldl_cons, ih (fun x hx => hall x (List.mem_cons_of_mem _ hx)),
        extractDocStep_other_doc _ _ _ _ _ (hall jd (List.mem_cons_self _ _))]
  exact this _ hsel db

/-- A one-document store whose document is already `completed` for the
extraction stage. -/
def completedDocDB : DBState :=
  { docs := [{ doc_id := 1, feed_id := 1, text_content := some "text" }]
    feeds := [{ feed_id := 1, org_id := 1 }]
    orgs := [{ org_id := 1, org_name := "org" }]
    states := [{ doc_id := 1, stage := "extraction", status := "completed" }] }

/-- Witness: on the concrete completed-document store, the extraction
pass selects nothing for document 1 and inserts nothing for it. -/
theorem extraction_completed_idempotent_witness :
    (∀ jd ∈ get_unprocessed_documents completedDocDB "extraction" 10, jd.doc_id ≠ 1) ∧
    challengesOfDoc (extract_challenges_pass (fun _ => []) (fun _ => []) completedDocDB 10) 1 =
      challengesOfDoc completedDocDB 1 :=
  extraction_completed_idempotent (fun _ => []) (fun _ => []) completedDocDB 10 1
    ⟨{ doc_id := 1, stage := "extraction", status := "completed" }, by decide, rfl, rfl, rfl⟩

/-! ## Claim C1 : in-memory merge vs persistence deletions -/

/-- Inserting into a sorted-descending list permutes consing. -/
theorem insertDesc_perm (key : ℕ → ℚ) (a : ℕ) (l : List ℕ) :
    (insertDesc key a l).Perm (a :: l) := by
  induction l with
  | nil => exact List.Perm.refl _
  | cons b t ih =>
    unfold insertDesc
    split
    · exact (List.Perm.cons b ih).trans (List.Perm.swap a b t)
    · exact List.Perm.refl _

/-- The stable descending sort is a permutation. -/
theorem sortDesc_perm (key : ℕ → ℚ) (l : List ℕ) : (sortDesc key l).Perm l := by
  induction l with
  | nil => exact List.Perm.refl _
  | cons a t ih => exact (insertDesc_perm key a (sortDesc key t)).trans (List.Perm.cons a ih)

/-- Inserting an element whose key dominates the whole list puts it in
front. -/
theorem insertDesc_eq_cons (key : ℕ → ℚ) (a : ℕ) (l : List ℕ)
    (h : ∀ b ∈ l, key b ≤ key a) : insertDesc key a l = a :: l := by
  cases l with
  | nil => rfl
  | cons b t =>
    unfold insertDesc
    rw [if_neg (not_lt.mpr (h b (List.mem_cons_self b t)))]

/-- When the first element's key dominates the group, the stable
descending sort keeps it first. -/
theorem sortDesc_cons_of_max (key : ℕ → ℚ) (a : ℕ) (t : List ℕ)
    (h : ∀ b ∈ t, key b ≤ key a) :
    sortDesc key (a :: t) = a :: sortDesc key t := by
  show insertDesc key a (sortDesc key t) = _
  exact insertDesc_eq_cons key a _ (fun b hb => h b ((sortDesc_perm key t).mem_iff.mp hb))

/-- Membership in a left fold of unions. -/
theorem mem_foldl_union {β : Type} (f : β → Finset ℕ) (l : List β)
    (init : Finset ℕ) (x : ℕ) :
    x ∈ l.foldl (fun s g => s ∪ f g) init ↔ x ∈ init ∨ ∃ g ∈ l, x ∈ f g := by
  induction l generalizing init with
  | nil => simp
  | cons g t ih =>
    rw [List.foldl_cons, ih]
    simp [or_assoc]

/-- When the group's first member has maximal confidence, the merge
removes exactly the tail of the group (under the same `idx < len`
guard the persistence pass applies). -/
theorem groupRemoved_eq_tail (challenges : List Challenge) (g : List ℕ)
    (hlen : 1 < g.length)
    (hmax : ∀ i ∈ g, confAt challenges i ≤ confAt challenges (g.headD 0)) :
    groupRemoved challenges g =
      (g.tail.filter (fun i => decide (i < challenges.length))).toFinset := by
  obtain ⟨a, t, rfl⟩ : ∃ a t, g = a :: t := by
    cases g with
    | nil => simp at hlen
    | cons a t => exact ⟨a, t, rfl⟩
  have hmax' : ∀ b ∈ t, confAt challenges b ≤ confAt challenges a := by
    intro b hb
    simpa using hmax b (List.mem_cons_of_mem a hb)
  unfold groupRemoved
  rw [if_neg (not_lt.mpr hlen), sortDesc_cons_of_max _ _ _ hmax']
  exact List.toFinset_eq_of_perm _ _ (List.Perm.filter _ (sortDesc_perm _ t))

/-- Claim C1, amended: when within every duplicate group the
first-listed member's confidence is at least every other member's (for
instance when confidences are all equal), the set of indices the
in-memory merge removes equals the set of indices whose backing records
the persistence pass deletes.  (Python's `sorted` is stable, so the
first-listed member is then the primary both layers keep.) -/
theorem merge_and_pipeline_removals_agree (challenges : List Challenge)
    (h : ∀ g ∈ find_duplicates challenges, ∀ i ∈ g,
      confAt challenges i ≤ confAt challenges (g.headD 0)) :
    indicesToRemove challenges (find_duplicates challenges) =
      pipelineDeletedIndices (find_duplicates challenges) challenges.length := by
  ext x
  unfold indicesToRemove pipelineDeletedIndices
  rw [mem_foldl_union, mem_foldl_union]
  simp only [Finset.not_mem_empty, false_or]
  constructor
  · rintro ⟨g, hg, hx⟩
    refine ⟨g, hg, ?_⟩
    have hlen : 1 < g.length := by
      have := (List.mem_filter.mp hg).2
      exact of_decide_eq_true this
    rwa [groupRemoved_eq_tail challenges g hlen (h g hg)] at hx
  · rintro ⟨g, hg, hx⟩
    refine ⟨g, hg, ?_⟩
    have hlen : 1 < g.length := by
      have := (List.mem_filter.mp hg).2
      exact of_decide_eq_true this
    rwa [groupRemoved_eq_tail challenges g hlen (h g hg)]

/-- Two challenges with the same statement, the second more confident:
the merge keeps index 1, the persistence pass keeps index 0. -/
def dupPair : List Challenge :=
  [{ challenge_statement := "water", confidence := 0 },
   { challenge_statement := "water", confidence := 1 }]

/-- Claim C1, counterexample: on `dupPair` the merge removes index 0
(the lower-confidence duplicate) while the persistence pass deletes
index 1 (everything after the group's first index), so the two removal
sets differ. -/
theorem merge_vs_pipeline_counterexample :
    indicesToRemove dupPair (find_duplicates dupPair) ≠
      pipelineDeletedIndices (find_duplicates dupPair) dupPair.length := by
  intro heq
  have h0 : (0 : ℕ) ∈ indicesToRemove dupPair (find_duplicates dupPair) := by decide
  rw [heq] at h0
  exact absurd h0 (by decide)

/-- Two equally confident challenges with the same statement. -/
def dupPairEq : List Challenge :=
  [{ challenge_statement := "water", confidence := 1 },
   { challenge_statement := "water", confidence := 1 }]

/-- Witness: with equal confidences the two layers remove the same
indices. -/
theorem merge_and_pipeline_removals_agree_witness :
    (∀ g ∈ find_duplicates dupPairEq, ∀ i ∈ g,
      confAt dupPairEq i ≤ confAt dupPairEq (g.headD 0)) ∧
    indicesToRemove dupPairEq (find_duplicates dupPairEq) =
      pipelineDeletedIndices (find_duplicates dupPairEq) dupPairEq.length :=
  ⟨by decide, merge_and_pipeline_removals_agree dupPairEq (by decide)⟩

/-! ## Claim C7 : deduplication is idempotent -/

/-- Membership in the first-occurrence deduplication. -/
theorem mem_firstDedup (l : List String) (x : String) :
    x ∈ firstDedup l ↔ x ∈ l := by
  have key : ∀ acc, x ∈ l.foldl (fun acc a => if a ∈ acc then acc else acc ++ [a]) acc ↔
      x ∈ acc ∨ x ∈ l := by
    induction l with
    | nil => intro acc; simp
    | cons a t ih =>
      intro acc
      rw [List.foldl_cons, ih]
      by_cases h : a ∈ acc
      · rw [if_pos h]
        constructor
        · rintro (hx | hx)
          · exact Or.inl hx
          · exact Or.inr (List.mem_cons_of_mem a hx)
        · rintro (hx | hx)
          · exact Or.inl hx
          · rcases List.mem_cons.mp hx with rfl | hx
            · exact Or.inl h
            · exact Or.inr hx
      · rw [if_neg h]
        simp [List.mem_append, or_assoc]
  unfold firstDedup
  rw [key []]
  simp

/-- Counting over positions equals counting over elements. -/
theorem countP_range_getD {α : Type} [Inhabited α] (l : List α) (Q : α → Bool) :
    List.countP (fun k => Q (l.getD k default)) (List.range l.length) =
      List.countP Q l := by
  induction l with
  | nil => rfl
  | cons x rest ih =>
    rw [List.length_cons, List.range_succ_eq_map, List.countP_cons, List.countP_map,
      List.countP_cons]
    simp only [Function.comp_def, List.getD_cons_succ, List.getD_cons_zero]
    rw [ih]

/-- A member of `validIndices` unpacked. -/
theorem mem_validIndices (cs : List Challenge) (i : ℕ) :
    i ∈ validIndices cs ↔ i < cs.length ∧ statementAt cs i ≠ "" := by
  unfold validIndices
  rw [List.mem_filter, List.mem_range]
  simp

/-- A member of a fingerprint bucket unpacked. -/
theorem mem_fpBucket (cs : List Challenge) (f : String) (i : ℕ) :
    i ∈ fpBucket cs f ↔ i ∈ validIndices cs ∧ fpAt cs i = f := by
  unfold fpBucket
  rw [List.mem_filter]
  simp

/-- A bucket with at least two members is one of the duplicate groups. -/
theorem fpBucket_mem_find_duplicates (cs : List Challenge) (f : String)
    (hf : f ∈ fpOrder cs) (hlen : 1 < (fpBucket cs f).length) :
    fpBucket cs f ∈ find_duplicates cs := by
  unfold find_duplicates
  rw [List.mem_filter]
  exact ⟨List.mem_map_of_mem _ hf, by simpa using hlen⟩

/-- The fingerprint of a valid index is one of the bucket keys. -/
theorem fpAt_mem_fpOrder (cs : List Challenge) (i : ℕ) (hi : i ∈ validIndices cs) :
    fpAt cs i ∈ fpOrder cs := by
  unfold fpOrder
  rw [mem_firstDedup]
  exact List.mem_map_of_mem _ hi

/-- Two in-range valid indices that survive the merge's removal set and
share a fingerprint are one and the same index: every duplicate group
loses all members but the sorted head. -/
theorem surviving_fp_injective (cs : List Challenge) (i j : ℕ)
    (hi : i < cs.length) (hj : j < cs.length)
    (hri : i ∉ indicesToRemove cs (find_duplicates cs))
    (hrj : j ∉ indicesToRemove cs (find_duplicates cs))
    (hsi : statementAt cs i ≠ "") (hsj : statementAt cs j ≠ "")
    (hfp : fpAt cs i = fpAt cs j) : i = j := by
  have hvi : i ∈ validIndices cs := (mem_validIndices cs i).mpr ⟨hi, hsi⟩
  have hvj : j ∈ validIndices cs := (mem_validIndices cs j).mpr ⟨hj, hsj⟩
  have hbi : i ∈ fpBucket cs (fpAt cs i) := (mem_fpBucket cs _ i).mpr ⟨hvi, rfl⟩
  have hbj : j ∈ fpBucket cs (fpAt cs i) := (mem_fpBucket cs _ j).mpr ⟨hvj, hfp.symm⟩
  by_cases hlen : 1 < (fpBucket cs (fpAt cs i)).length
  · have hg : fpBucket cs (fpAt cs i) ∈ find_duplicates cs :=
      fpBucket_mem_find_duplicates cs _ (fpAt_mem_fpOrder cs i hvi) hlen
    obtain ⟨hd, tl, hsort⟩ : ∃ hd tl,
        sortDesc (confAt cs) (fpBucket cs (fpAt cs i)) = hd :: tl := by
      cases hs : sortDesc (confAt cs) (fpBucket cs (fpAt cs i)) with
      | nil =>
        have hl := (sortDesc_perm (confAt cs) (fpBucket cs (fpAt cs i))).length_eq
        rw [hs] at hl
        rw [← hl] at hlen
        simp at hlen
      | cons hd tl => exact ⟨hd, tl, rfl⟩
    have honly : ∀ k, k ∈ fpBucket cs (fpAt cs i) → k < cs.length →
        k ∉ indicesToRemove cs (find_duplicates cs) → k = hd := by
      intro k hkg hkn hkr
      have hk' : k ∈ sortDesc (confAt cs) (fpBucket cs (fpAt cs i)) :=
        (sortDesc_perm (confAt cs) _).mem_iff.mpr hkg
      rw [hsort] at hk'
      rcases List.mem_cons.mp hk' with h | h
      · exact h
      · exfalso
        apply hkr
        unfold indicesToRemove
        rw [mem_foldl_union]
        refine Or.inr ⟨_, hg, ?_⟩
        unfold groupRemoved
        rw [if_neg (not_lt.mpr hlen), List.mem_toFinset, hsort]
        simp only [List.tail_cons]
        rw [List.mem_filter]
        exact ⟨h, by simpa using hkn⟩
    exact (honly i hbi hi hri).trans (honly j hbj hj hrj).symm
  · cases hb : fpBucket cs (fpAt cs i) with
    | nil =>
      rw [hb] at hbi
      cases hbi
    | cons a t =>
      rw [hb] at hbi hbj hlen
      have ht : t = [] := by
        cases t with
        | nil => rfl
        | cons b u => simp at hlen
      subst ht
      rw [List.mem_singleton] at hbi hbj
      rw [hbi, hbj]

/-- The update the merge applies to a primary never changes the
statement. -/
theorem mergeUpd_statement (cs : List Challenge) (groups : List (List ℕ)) (i : ℕ) :
    (match groups.find? (fun g : List ℕ => decide (¬ g.length < 2) &&
        decide (primaryOf cs g = i)) with
      | some g => mergeUpdate cs g (cs.getD i default)
      | none => cs.getD i default).challenge_statement =
      (cs.getD i default).challenge_statement := by
  cases groups.find? (fun g : List ℕ => decide (¬ g.length < 2) && decide (primaryOf cs g = i)) with
  | none => rfl
  | some g => rfl

/-- Bucket sizes as element counts. -/
theorem fpBucket_length_countP (xs : List Challenge) (f : String) :
    (fpBucket xs f).length = List.countP (fun c =>
      decide (create_fingerprint c.challenge_statement = f) &&
      decide (c.challenge_statement ≠ "")) xs := by
  unfold fpBucket validIndices fpAt statementAt
  rw [← List.countP_eq_length_filter, List.countP_filter]
  exact countP_range_getD xs (fun c =>
    decide (create_fingerprint c.challenge_statement = f) &&
    decide (c.challenge_statement ≠ ""))

/-- A list where every fingerprint bucket has at most one member yields
no duplicate groups. -/
theorem find_duplicates_eq_nil_of_buckets (xs : List Challenge)
    (h : ∀ f, (fpBucket xs f).length ≤ 1) : find_duplicates xs = [] := by
  unfold find_duplicates
  rw [List.filter_eq_nil_iff]
  intro g hg
  rw [List.mem_map] at hg
  obtain ⟨f, -, rfl⟩ := hg
  simp only [decide_eq_true_eq]
  exact not_lt.mpr (h f)

/-- A list of length at least two with no duplicates holds two distinct
members. -/
theorem exists_two_distinct_of_nodup (l : List ℕ) (hn : l.Nodup) (h : 1 < l.length) :
    ∃ a b, a ∈ l ∧ b ∈ l ∧ a ≠ b := by
  cases l with
  | nil => simp at h
  | cons a t =>
    cases t with
    | nil => simp at h
    | cons b u =>
      refine ⟨a, b, List.mem_cons_self _ _, List.mem_cons_of_mem _ (List.mem_cons_self _ _), ?_⟩
      intro hab
      exact (List.nodup_cons.mp hn).1 (hab ▸ List.mem_cons_self b u)

/-- Claim C7: deduplication is idempotent — merging the duplicate groups
found on a list leaves a list on which `find_duplicates` finds no
further groups, so a second merge removes nothing. -/
theorem dedup_idempotent (challenges : List Challenge) :
    find_duplicates (merge_duplicates challenges (find_duplicates challenges)) = [] := by
  apply find_duplicates_eq_nil_of_buckets
  intro f
  unfold merge_duplicates
  rw [fpBucket_length_countP, List.countP_map]
  have hcongr : List.countP ((fun c =>
      decide (create_fingerprint c.challenge_statement = f) &&
      decide (c.challenge_statement ≠ "")) ∘ (fun i =>
        match (find_duplicates challenges).find? (fun g => decide (¬ g.length < 2) &&
            decide (primaryOf challenges g = i)) with
        | some g => mergeUpdate challenges g (challenges.getD i default)
        | none => challenges.getD i default))
      ((List.range challenges.length).filter
        (fun i => decide (i ∉ indicesToRemove challenges (find_duplicates challenges)))) =
    List.countP (fun i => decide (fpAt challenges i = f) &&
      decide (statementAt challenges i ≠ ""))
      ((List.range challenges.length).filter
        (fun i => decide (i ∉ indicesToRemove challenges (find_duplicates challenges)))) := by
    apply List.countP_congr
    intro i _
    simp only [Function.comp_def]
    rw [mergeUpd_statement]
    rfl
  rw [hcongr]
  by_contra hgt
  push_neg at hgt
  rw [List.countP_eq_length_filter] at hgt
  have hnodup : (((List.range challenges.length).filter
      (fun i => decide (i ∉ indicesToRemove challenges (find_duplicates challenges)))).filter
      (fun i => decide (fpAt challenges i = f) &&
        decide (statementAt challenges i ≠ ""))).Nodup :=
    ((List.nodup_range _).filter _).filter _
  obtain ⟨a, b, ha, hb, hab⟩ := exists_two_distinct_of_nodup _ hnodup hgt
  rw [List.mem_filter, List.mem_filter, List.mem_range] at ha
  rw [List.mem_filter, List.mem_filter, List.mem_range] at hb
  obtain ⟨⟨han, har⟩, hap⟩ := ha
  obtain ⟨⟨hbn, hbr⟩, hbp⟩ := hb
  rw [Bool.and_eq_true, decide_eq_true_eq, decide_eq_true_eq] at hap hbp
  rw [decide_eq_true_eq] at har hbr
  exact hab (surviving_fp_injective challenges a b han hbn har hbr
    hap.2 hbp.2 (hap.1.trans hbp.1.symm))

/-! ## Claim C8 : fixed-size chunking round-trip -/

/-- Claim C8, counterexample: on `"hello world"` the single window's
text has 11 characters, fails the `> 50` filter and is dropped, so the
chunk list is empty and the concatenation cannot reconstruct the
two-word sequence. -/
theorem chunk_roundtrip_counterexample :
    chunk_by_size 1000 150 "hello world" = [] ∧
    reconstructWords 150 (chunk_by_size 1000 150 "hello world") ≠
      pySplit "hello world" := by
  exact ⟨by decide, by decide⟩

/-- Every token `str.split()` produces is nonempty and free of
whitespace. -/
theorem wordsAux_clean (l : List Char) : ∀ acc, (∀ c ∈ acc, pyIsSpace c = false) →
    ∀ w ∈ wordsAux l acc, w ≠ [] ∧ ∀ c ∈ w, pyIsSpace c = false := by
  induction l with
  | nil =>
    intro acc hacc w hw
    cases acc with
    | nil => simp [wordsAux] at hw
    | cons a t =>
      simp only [wordsAux, List.mem_singleton] at hw
      subst hw
      refine ⟨by simp, ?_⟩
      intro c hc
      exact hacc c (List.mem_reverse.mp hc)
  | cons c rest ih =>
    intro acc hacc w hw
    by_cases hc : pyIsSpace c
    · cases acc with
      | nil =>
        rw [show wordsAux (c :: rest) [] = wordsAux rest [] by simp [wordsAux, hc]] at hw
        exact ih [] (by simp) w hw
      | cons a t =>
        rw [show wordsAux (c :: rest) (a :: t) =
            (a :: t).reverse :: wordsAux rest [] by simp [wordsAux, hc]] at hw
        rcases List.mem_cons.mp hw with rfl | hw
        · refine ⟨by simp, ?_⟩
          intro x hx
          exact hacc x (List.mem_reverse.mp hx)
        · exact ih [] (by simp) w hw
    · rw [show wordsAux (c :: rest) acc = wordsAux rest (c :: acc) by
          simp [wordsAux, hc]] at hw
      refine ih (c :: acc) ?_ w hw
      intro x hx
      rcases List.mem_cons.mp hx with rfl | hx
      · exact eq_false_of_ne_true hc
      · exact hacc x hx

/-- The tokens of `pySplit` are nonempty and whitespace-free. -/
theorem pySplit_clean (s : String) :
    ∀ w ∈ pySplit s, w.data ≠ [] ∧ ∀ c ∈ w.data, pyIsSpace c = false := by
  intro w hw
  unfold pySplit pySplitL at hw
  rw [List.mem_map] at hw
  obtain ⟨wl, hwl, rfl⟩ := hw
  exact wordsAux_clean s.data [] (by simp) wl hwl

/-- Scanning a whitespace-free block prepends it (reversed) to the
accumulator. -/
theorem wordsAux_append (w : List Char) :
    ∀ (l acc : List Char), (∀ c ∈ w, pyIsSpace c = false) →
      wordsAux (w ++ l) acc = wordsAux l (w.reverse ++ acc) := by
  induction w with
  | nil => intro l acc _; simp
  | cons c wt ih =>
    intro l acc hcl
    have hc : pyIsSpace c = false := hcl c (List.mem_cons_self c wt)
    rw [List.cons_append,
      show wordsAux (c :: (wt ++ l)) acc = wordsAux (wt ++ l) (c :: acc) by
        simp [wordsAux, hc],
      ih l (c :: acc) (fun x hx => hcl x (List.mem_cons_of_mem c hx))]
    congr 1
    simp

/-- Splitting the space-join of clean words returns the words: the
round-trip core. -/
theorem pySplitL_joinSpL (ws : List (List Char))
    (h : ∀ w ∈ ws, w ≠ [] ∧ ∀ c ∈ w, pyIsSpace c = false) :
    pySplitL (joinSpL ws) = ws := by
  induction ws with
  | nil => rfl
  | cons w rest ih =>
    obtain ⟨hw0, hwc⟩ := h w (List.mem_cons_self w rest)
    cases rest with
    | nil =>
      show pySplitL (joinSpL [w]) = [w]
      unfold pySplitL joinSpL
      rw [show w = w ++ ([] : List Char) by simp, wordsAux_append w [] [] (by simpa using hwc)]
      cases hwr : w.reverse with
      | nil => exact absurd (by simpa using hwr) (by simpa using hw0)
      | cons a t => simp [wordsAux, ← hwr]
    | cons r rt =>
      show pySplitL (joinSpL (w :: r :: rt)) = w :: r :: rt
      unfold pySplitL
      rw [show joinSpL (w :: r :: rt) = w ++ ' ' :: joinSpL (r :: rt) from rfl,
        wordsAux_append w _ [] hwc, List.append_nil]
      have hrev : w.reverse ≠ [] := by simpa using hw0
      cases hwr : w.reverse with
      | nil => exact absurd hwr hrev
      | cons a t =>
        rw [show wordsAux (' ' :: joinSpL (r :: rt)) (a :: t) =
            (a :: t).reverse :: wordsAux (joinSpL (r :: rt)) [] by
              simp [wordsAux, pyIsSpace]]
        rw [← hwr, List.reverse_reverse]
        have hih := ih (fun x hx => h x (List.mem_cons_of_mem w hx))
        unfold pySplitL at hih
        rw [hih]

/-- Splitting the space-join of clean words returns the words, at the
`String` level. -/
theorem pySplit_joinSp (ws : List String)
    (h : ∀ w ∈ ws, w.data ≠ [] ∧ ∀ c ∈ w.data, pyIsSpace c = false) :
    pySplit (joinSp ws) = ws := by
  unfold pySplit joinSp
  rw [show (String.mk (joinSpL (ws.map String.data))).data
      = joinSpL (ws.map String.data) from rfl]
  rw [pySplitL_joinSpL]
  · have hmap : ∀ l : List String, (l.map String.data).map (fun w => String.mk w) = l := by
      intro l
      induction l with
      | nil => rfl
      | cons a t ih =>
        rw [List.map_cons, List.map_cons, ih]
    exact hmap ws
  · intro wl hwl
    rw [List.mem_map] at hwl
    obtain ⟨w, hw, rfl⟩ := hwl
    exact h w hw

/-- Splitting a window's text recovers the window's words. -/
theorem pySplit_chunkWindowText (text : String) (s e : ℕ) :
    pySplit (chunkWindowText (pySplit text) s e) =
      ((pySplit text).drop s).take (e - s) := by
  unfold chunkWindowText
  apply pySplit_joinSp
  intro w hw
  exact pySplit_clean text w (List.drop_subset _ _ (List.take_subset _ _ hw))

/-- The overlap-dropped concatenation of the chunks the loop produces
from `start` equals the word suffix from `start + overlap_size`, given
enough fuel and that every visited window passes the length filter. -/
theorem chunkStep_tail_concat (chunk_size overlap_size : ℕ) (text : String)
    (hov : overlap_size < chunk_size) :
    ∀ fuel start cidx, (pySplit text).length - start < fuel →
      (∀ w ∈ windowsFrom chunk_size overlap_size (pySplit text).length fuel start,
        50 < (pyStrip (chunkWindowText (pySplit text) w.1 w.2).data).length) →
      (chunkStep chunk_size overlap_size (pySplit text) fuel start cidx).flatMap
          (fun c => (pySplit c.text).drop overlap_size) =
        (pySplit text).drop (start + overlap_size) := by
  intro fuel
  induction fuel with
  | zero =>
    intro start cidx h _
    omega
  | succ m ih =>
    intro start cidx hfuel hkeep
    by_cases hstart : start < (pySplit text).length
    · have hmemw : (start, min (start + chunk_size) (pySplit text).length) ∈
          windowsFrom chunk_size overlap_size (pySplit text).length (m + 1) start := by
        unfold windowsFrom
        rw [if_pos hstart]
        exact List.mem_cons_self _ _
      have hkeephead := hkeep _ hmemw
      unfold chunkStep
      rw [if_pos hstart]
      dsimp only
      rw [if_pos hkeephead, if_pos hkeephead]
      by_cases hend : min (start + chunk_size) (pySplit text).length < (pySplit text).length
      · have he : min (start + chunk_size) (pySplit text).length = start + chunk_size := by
          rcases min_lt_iff.mp hend with h | h
          · exact min_eq_left (Nat.le_of_lt h)
          · omega
        have hend' : start + chunk_size < (pySplit text).length := by
          rw [he] at hend
          exact hend
        rw [he] at hkeephead ⊢
        rw [if_pos hend']
        rw [if_pos (by omega : start < start + chunk_size - overlap_size)]
        rw [List.singleton_append, List.flatMap_cons]
        have hwin' : ∀ w ∈ windowsFrom chunk_size overlap_size (pySplit text).length m
            (start + chunk_size - overlap_size),
            50 < (pyStrip (chunkWindowText (pySplit text) w.1 w.2).data).length := by
          intro w hw
          apply hkeep
          unfold windowsFrom
          rw [if_pos hstart]
          refine List.mem_cons_of_mem _ ?_
          rw [he, if_pos hend', if_pos (by omega : start < start + chunk_size - overlap_size)]
          exact hw
        rw [ih (start + chunk_size - overlap_size) _ (by omega) hwin']
        rw [pySplit_chunkWindowText, List.drop_take, List.drop_drop]
        rw [show start + chunk_size - overlap_size + overlap_size = start + chunk_size by omega]
        have hdrop : (pySplit text).drop (start + chunk_size) =
            ((pySplit text).drop (start + overlap_size)).drop
              (start + chunk_size - start - overlap_size) := by
          rw [List.drop_drop]
          congr 1
          omega
        rw [hdrop, List.take_append_drop]
      · rw [if_neg hend]
        rw [List.append_nil, List.flatMap_cons, List.flatMap_nil, List.append_nil]
        have he : min (start + chunk_size) (pySplit text).length = (pySplit text).length := by
          rcases Nat.lt_or_ge (start + chunk_size) (pySplit text).length with h | h
          · omega
          · exact min_eq_right h
        rw [pySplit_chunkWindowText, he, List.drop_take, List.drop_drop]
        rw [List.take_of_length_le (by rw [List.length_drop]; omega)]
    · unfold chunkStep
      rw [if_neg hstart]
      rw [List.flatMap_nil]
      rw [eq_comm]
      exact List.drop_eq_nil_of_le (by omega)

/-- Claim C8, amended: for every chunker configuration with
`overlap_size < chunk_size` and every text all of whose visited windows
pass the 50-character filter, concatenating the chunks' word sequences
— dropping the leading `overlap_size` words of every chunk after the
first — reconstructs exactly the whitespace-tokenized word sequence of
the text.  (Without the filter hypothesis a final window of at most 50
characters is silently dropped and its words are lost.) -/
theorem chunk_roundtrip (chunk_size overlap_size : ℕ) (text : String)
    (hov : overlap_size < chunk_size)
    (hkeep : ∀ w ∈ chunkWindows chunk_size overlap_size text,
      50 < (pyStrip (chunkWindowText (pySplit text) w.1 w.2).data).length) :
    reconstructWords overlap_size (chunk_by_size chunk_size overlap_size text) =
      pySplit text := by
  unfold chunk_by_size
  dsimp only
  by_cases hn : 0 < (pySplit text).length
  · unfold chunkStep
    rw [if_pos hn]
    dsimp only
    have hmemw : ((0 : ℕ), min (0 + chunk_size) (pySplit text).length) ∈
        chunkWindows chunk_size overlap_size text := by
      unfold chunkWindows windowsFrom
      rw [if_pos hn]
      exact List.mem_cons_self _ _
    have hkeephead := hkeep _ hmemw
    rw [if_pos hkeephead, if_pos hkeephead]
    by_cases hend : min (0 + chunk_size) (pySplit text).length < (pySplit text).length
    · have he : min (0 + chunk_size) (pySplit text).length = 0 + chunk_size := by
        rcases min_lt_iff.mp hend with h | h
        · exact min_eq_left (Nat.le_of_lt h)
        · omega
      have hend' : 0 + chunk_size < (pySplit text).length := by
        rw [he] at hend
        exact hend
      rw [he] at hkeephead ⊢
      rw [if_pos hend', if_pos (by omega : 0 < 0 + chunk_size - overlap_size)]
      rw [List.singleton_append]
      show pySplit (chunkWindowText (pySplit text) 0 (0 + chunk_size)) ++
          (chunkStep chunk_size overlap_size (pySplit text) (pySplit text).length
            (0 + chunk_size - overlap_size) (0 + 1)).flatMap
            (fun c => (pySplit c.text).drop overlap_size) = pySplit text
      have hwin' : ∀ w ∈ windowsFrom chunk_size overlap_size (pySplit text).length
          (pySplit text).length (0 + chunk_size - overlap_size),
          50 < (pyStrip (chunkWindowText (pySplit text) w.1 w.2).data).length := by
        intro w hw
        apply hkeep
        unfold chunkWindows windowsFrom
        rw [if_pos hn]
        refine List.mem_cons_of_mem _ ?_
        rw [he, if_pos hend', if_pos (by omega : 0 < 0 + chunk_size - overlap_size)]
        exact hw
      rw [chunkStep_tail_concat chunk_size overlap_size text hov (pySplit text).length
        (0 + chunk_size - overlap_size) (0 + 1) (by omega) hwin']
      rw [pySplit_chunkWindowText,
        show 0 + chunk_size - overlap_size + overlap_size = chunk_size by omega,
        show (0 + chunk_size - 0 : ℕ) = chunk_size by omega,
        List.drop_zero, List.take_append_drop]
    · rw [if_neg hend, List.append_nil]
      show pySplit (chunkWindowText (pySplit text) 0
          (min (0 + chunk_size) (pySplit text).length)) ++
          ([] : List ChunkRec).flatMap (fun c => (pySplit c.text).drop overlap_size) =
        pySplit text
      have he : min (0 + chunk_size) (pySplit text).length = (pySplit text).length := by
        rcases Nat.lt_or_ge (0 + chunk_size) (pySplit text).length with h | h
        · omega
        · exact min_eq_right h
      rw [List.flatMap_nil, List.append_nil, pySplit_chunkWindowText, he, List.drop_zero,
        List.take_of_length_le (by omega)]
  · have h0 : pySplit text = [] := List.length_eq_zero.mp (by omega)
    rw [show chunkStep chunk_size overlap_size (pySplit text)
        ((pySplit text).length + 1) 0 0 = [] by
      unfold chunkStep
      rw [if_neg (by omega)]]
    rw [h0]
    rfl

/-- Witness: a single 60-character word passes the filter and round
trips through the default-size chunker. -/
theorem chunk_roundtrip_witness :
    reconstructWords 150 (chunk_by_size 1000 150 (String.mk (List.replicate 60 'a'))) =
      pySplit (String.mk (List.replicate 60 'a')) :=
  chunk_roundtrip 1000 150 (String.mk (List.replicate 60 'a')) (by decide) (by decide)
